import Mathlib

/-!
Shallow embedding of the `trnsltr` real-time voice-translation client.

The definitions below translate the relevant parts of the source:
* `resample` from `src/components/TranslationApp.tsx` (audio resampler);
* the segmentation heuristics (`detectSentenceEnd`, `countWords`,
  `shouldTriggerTranslation`) and the STT message handlers
  (`handleWord`, `handleFinal`, `timerFire`) from `TranslationApp.tsx`;
* the reconnect backoff of `connectWebSocket` from `TranslationApp.tsx`;
* the translation dispatch `translateAsync` from `TranslationApp.tsx`;
* the `TTSService` synthesis queue, playback queue, `setVoice`, `speak`
  and `disconnect` from `src/services/tts.ts`.

JavaScript strings are embedded as Lean `String`s; `trim` and the
whitespace word-split are rendered structurally over the underlying
character list.  Numbers that the program uses as exact values
(sample counts, attempt counters, millisecond timestamps) are `Nat`;
audio samples and sample rates are embedded as `ℚ`, standing in for
the exact arithmetic the resampler performs on its inputs.
-/

namespace Trnsltr

/-! ### Resampler (`TranslationApp.tsx`, `resample`) -/

/-- JS `Math.round` on the nonnegative values used here: `⌊q + 1/2⌋`. -/
def jsMathRound (q : ℚ) : ℤ := Int.floor (q + 1/2)

/-- Body of `resample`'s loop: linear interpolation of `samples` at fractional
source position `pos`, the upper index clamped to the last sample
(`Math.min(srcIndexFloor + 1, samples.length - 1)`). -/
def linearInterpAt (samples : List ℚ) (pos : ℚ) : ℚ :=
  let srcIndexFloor : ℤ := Int.floor pos
  let srcIndexCeil : ℤ := min (srcIndexFloor + 1) ((samples.length : ℤ) - 1)
  let t : ℚ := pos - (srcIndexFloor : ℚ)
  samples.getD srcIndexFloor.toNat 0 * (1 - t) + samples.getD srcIndexCeil.toNat 0 * t

/-- Function `resample(samples, fromRate, toRate)` from `TranslationApp.tsx`:
identity when the rates agree, otherwise `round(length / ratio)` output
samples, each linearly interpolated at `i * ratio`. -/
def resample (samples : List ℚ) (fromRate toRate : ℚ) : List ℚ :=
  if fromRate = toRate then samples
  else
    let ratio := fromRate / toRate
    let newLength := (jsMathRound ((samples.length : ℚ) / ratio)).toNat
    (List.range newLength).map fun (i : ℕ) => linearInterpAt samples ((i : ℚ) * ratio)

/-! ### Segmenter (`TranslationApp.tsx`) -/

/-- The sentence-terminal punctuation class of `detectSentenceEnd`'s regex
`/[.!?。！？]\s*$/`. -/
def sentenceTerminals : List Char := ['.', '!', '?', '。', '！', '？']

/-- JS `String.prototype.trim`: strip leading and trailing whitespace. -/
def jsTrim (s : String) : String :=
  ⟨((s.data.dropWhile Char.isWhitespace).reverse.dropWhile Char.isWhitespace).reverse⟩

/-- Function `detectSentenceEnd(text)`: the regex `/[.!?。！？]\s*$/` tested against
`text.trim()`; on a trimmed string this holds exactly when the last
character is in the terminal class. -/
def detectSentenceEnd (text : String) : Bool :=
  match (jsTrim text).data.getLast? with
  | some c => sentenceTerminals.contains c
  | none => false

/-- Helper for `countWords`: counts maximal nonempty runs of
non-whitespace characters (the nonempty pieces of a `\s+` split). -/
def countRuns : List Char → Bool → Nat
  | [], _ => 0
  | c :: cs, inWord =>
    if c.isWhitespace then countRuns cs false
    else (if inWord then 0 else 1) + countRuns cs true

/-- Function `countWords(text)`: `text.trim().split(/\s+/).filter(w => w.length > 0).length`. -/
def countWords (text : String) : Nat := countRuns (jsTrim text).data false

/-- Function `shouldTriggerTranslation(text)`: sentence end detected or the word count
reached `config.translationMaxWords`. -/
def shouldTriggerTranslation (maxWords : Nat) (text : String) : Bool :=
  detectSentenceEnd text || decide (countWords text ≥ maxWords)

/-- A `TranslationSegment` (fields `id`, `original`, `translated`,
`timestamp`); the `Date` timestamp is embedded as the millisecond count. -/
structure Segment where
  id : String
  original : String
  translated : String
  timestamp : Nat
deriving DecidableEq

/-- The segmentation-relevant state of `TranslationApp`: the pending
transcript buffer `currentOriginal`, the ordered segment collection
`segments`, and the idle translation timer (holding the text captured
by `startTranslationTimer`). -/
structure AppState where
  currentOriginal : String
  segments : List Segment
  timer : Option String
deriving DecidableEq

/-- Segment creation as performed at all three creation sites:
`id = Date.now().toString()`, empty translation, timestamp `now`. -/
def mkSegment (now : Nat) (text : String) : Segment :=
  ⟨Nat.repr now, text, "", now⟩

/-- The `message.type === 'word'` branch of `handleEarsMessage`: append the
word, flush immediately on a trigger, otherwise restart the idle timer. -/
def handleWord (maxWords : Nat) (now : Nat) (st : AppState) (word : String) : AppState :=
  let newText := st.currentOriginal ++ " " ++ word
  if shouldTriggerTranslation maxWords newText then
    { currentOriginal := ""
      segments := st.segments ++ [mkSegment now (jsTrim newText)]
      timer := none }
  else
    { currentOriginal := newText, segments := st.segments, timer := some newText }

/-- The `message.type === 'final'` branch of `handleEarsMessage`.  The JS
guard is `message.type === 'final' && message.text`, so an absent or empty
`text` skips the branch entirely. -/
def handleFinal (now : Nat) (st : AppState) (text : Option String) : AppState :=
  match text with
  | none => st
  | some t =>
    if t = "" then st
    else
      let transcribedText := jsTrim t
      { currentOriginal := ""
        segments :=
          if transcribedText = "" then st.segments
          else st.segments ++ [mkSegment now transcribedText]
        timer := none }

/-- Expiry of the timer armed by `startTranslationTimer(text)`: the callback
flushes the captured text when its trim is nonempty, else does nothing. -/
def timerFire (now : Nat) (st : AppState) : AppState :=
  match st.timer with
  | none => st
  | some text =>
    if jsTrim text = "" then { st with timer := none }
    else
      { currentOriginal := ""
        segments := st.segments ++ [mkSegment now (jsTrim text)]
        timer := none }

/-- The three segment-creating inputs of the app, each processed at a
millisecond timestamp. -/
inductive AppEvent where
  | word (w : String)
  | finalMsg (text : Option String)
  | timerExpire
deriving DecidableEq

/-- One step of the segmentation state machine at time `now`. -/
def stepApp (maxWords : Nat) (st : AppState) (now : Nat) (e : AppEvent) : AppState :=
  match e with
  | .word w => handleWord maxWords now st w
  | .finalMsg t => handleFinal now st t
  | .timerExpire => timerFire now st

/-- Run a timestamped event trace through the segmentation state machine. -/
def runApp (maxWords : Nat) (st : AppState) (tr : List (Nat × AppEvent)) : AppState :=
  tr.foldl (fun s p => stepApp maxWords s p.1 p.2) st

/-- The app's initial segmentation state. -/
def initApp : AppState := ⟨"", [], none⟩

/-! ### STT reconnect backoff (`TranslationApp.tsx`, `connectWebSocket`) -/

/-- Constant `maxReconnectAttempts = 5`. -/
def maxReconnectAttempts : Nat := 5

/-- The `onclose` handler's backoff logic: given the current attempt
counter, the scheduled reconnect delay (if any) and the new counter. -/
def handleClose (attempts : Nat) : Option Nat × Nat :=
  if attempts < maxReconnectAttempts then
    (some (min (1000 * 2 ^ attempts) 30000), attempts + 1)
  else (none, attempts)

/-- The `onopen` handler resets the attempt counter to zero. -/
def handleOpen (_attempts : Nat) : Nat := 0

/-- Delays scheduled by `n` repeated immediate closes starting from
attempt counter `a`. -/
def repeatedCloses : Nat → Nat → List (Option Nat)
  | 0, _ => []
  | n + 1, a => (handleClose a).1 :: repeatedCloses n (handleClose a).2

/-! ### Translation dispatch (`TranslationApp.tsx`, `translateAsync`) -/

/-- Outcome of the `translateText` call awaited by `translateAsync`. -/
inductive TranslationOutcome where
  | success (translatedText : String)
  | errorResult (err : String)
  | thrown (err : String)
deriving DecidableEq

/-- The `setSegments(prev => prev.map(...))` success update: the segment
matching the dispatched id gets the translated text, in place. -/
def applyTranslation (segs : List Segment) (segmentId translated : String) : List Segment :=
  segs.map fun seg =>
    if seg.id = segmentId then { seg with translated := translated } else seg

/-- Function `translateAsync(text, segmentId)` over the pending-id set and the segment
collection.  Returns the new pending set, the new segments, and the number of
translation calls issued.  The guard skips ids already pending; otherwise the
id is added and removed again in `finally`, so the set is unchanged net;
an `error` result or a thrown exception leaves the segments untouched. -/
def translateAsync (pending : List String) (segs : List Segment) (segmentId : String)
    (outcome : TranslationOutcome) : List String × List Segment × Nat :=
  if segmentId ∈ pending then (pending, segs, 0)
  else
    match outcome with
    | .success t => (pending, applyTranslation segs segmentId t, 1)
    | .errorResult _ => (pending, segs, 1)
    | .thrown _ => (pending, segs, 1)

/-! ### TTS Session (`src/services/tts.ts`) -/

/-- A `TTSQueueItem`; the completion callbacks are identified by the token
assigned at `speak` time (the index of the call in the `speak` log). -/
structure QItem where
  text : String
  language : Option String
  token : Nat
deriving DecidableEq

/-- A `synthesize` command as sent on the socket. -/
structure SynthCmd where
  text : String
  language : Option String
deriving DecidableEq

/-- The `synthesize` command built by `processNextInQueue` for a queue item. -/
def QItem.toCmd (it : QItem) : SynthCmd := ⟨it.text, it.language⟩

/-- The `TTSService` state: socket, text queue, processing flag, audio
playback queue and flag, plus the event logs (speak calls, sent `synthesize`
commands, settled promises as (token, resolved?)). -/
structure TTSState where
  wsOpen : Bool
  textQueue : List QItem
  isProcessing : Bool
  audioQueue : List Nat
  isPlaying : Bool
  spoken : List QItem
  sent : List SynthCmd
  settled : List (Nat × Bool)
deriving DecidableEq

/-- Method `processNextInQueue`: no-op while processing or on an empty queue;
otherwise send `synthesize` for the queue head, or — if the socket is not
open — shift and reject the head immediately. -/
def processNextInQueue (s : TTSState) : TTSState :=
  if s.isProcessing || s.textQueue.isEmpty then s
  else
    match s.textQueue with
    | [] => s
    | item :: rest =>
      if s.wsOpen then
        { s with isProcessing := true, sent := s.sent ++ [item.toCmd] }
      else
        { s with textQueue := rest, settled := s.settled ++ [(item.token, false)] }

/-- Method `speak`'s queueing step: push the item and kick the queue processor when
idle.  The item's token is the index of this call in the `speak` log. -/
def speak (s : TTSState) (text : String) (language : Option String) : TTSState :=
  let item : QItem := ⟨text, language, s.spoken.length⟩
  let s' := { s with textQueue := s.textQueue ++ [item], spoken := s.spoken ++ [item] }
  if s'.isProcessing then s' else processNextInQueue s'

/-- Method `handleMessage` on `synthesis_completed`: shift and resolve the queue
head (if any), clear the processing flag, process the next item. -/
def handleSynthesisCompleted (s : TTSState) : TTSState :=
  let s' :=
    match s.textQueue with
    | [] => s
    | item :: rest => { s with textQueue := rest, settled := s.settled ++ [(item.token, true)] }
  processNextInQueue { s' with isProcessing := false }

/-- Method `handleMessage` on `error`: clear the processing flag, shift and reject
the queue head (if any), process the next item. -/
def handleSynthesisError (s : TTSState) : TTSState :=
  let s' := { s with isProcessing := false }
  let s'' :=
    match s'.textQueue with
    | [] => s'
    | item :: rest => { s' with textQueue := rest, settled := s'.settled ++ [(item.token, false)] }
  processNextInQueue s''

/-- Method `playNextChunk`: idle on an empty audio queue, else shift and play. -/
def playNextChunk (s : TTSState) : TTSState :=
  match s.audioQueue with
  | [] => { s with isPlaying := false }
  | _ :: rest => { s with isPlaying := true, audioQueue := rest }

/-- Method `handleAudioChunk`: a successfully decoded chunk is appended to the
playback queue and playback starts if idle; a decode failure drops the chunk. -/
def handleAudioChunk (s : TTSState) (decodeOk : Bool) (buf : Nat) : TTSState :=
  if decodeOk then
    let s' := { s with audioQueue := s.audioQueue ++ [buf] }
    if s'.isPlaying then s' else playNextChunk s'
  else s

/-- Method `disconnect()`: close and null the socket, close the audio context,
empty both queues, clear both flags.  The queued items' callbacks are
discarded without being invoked. -/
def disconnect (s : TTSState) : TTSState :=
  { s with wsOpen := false, textQueue := [], audioQueue := [],
           isPlaying := false, isProcessing := false }

/-- Method `isConnected()`: the socket exists and is open. -/
def isConnected (s : TTSState) : Bool := s.wsOpen

/-- Events driving the `TTSService` state. -/
inductive TTSEvent where
  | speakReq (text : String) (language : Option String)
  | synthesisCompleted
  | synthesisError
  | audioChunk (decodeOk : Bool) (buf : Nat)
  | chunkEnded
  | disconnectReq
deriving DecidableEq

/-- One `TTSService` step. -/
def step (s : TTSState) (e : TTSEvent) : TTSState :=
  match e with
  | .speakReq text lang => speak s text lang
  | .synthesisCompleted => handleSynthesisCompleted s
  | .synthesisError => handleSynthesisError s
  | .audioChunk ok buf => handleAudioChunk s ok buf
  | .chunkEnded => playNextChunk s
  | .disconnectReq => disconnect s

/-- Run an event trace through the `TTSService`. -/
def run (s : TTSState) (es : List TTSEvent) : TTSState := es.foldl step s

/-- The state right after a successful `connect()`: socket open, everything
else empty. -/
def initTTS : TTSState := ⟨true, [], false, [], false, [], [], []⟩

/-- Events covered by the synthesis-queue claim: `speak` calls and terminal
server responses. -/
def isCoreEvent : TTSEvent → Bool
  | .speakReq _ _ => true
  | .synthesisCompleted => true
  | .synthesisError => true
  | _ => false

/-- Terminal server responses (`synthesis_completed` / `error`). -/
def isTerminalResponse : TTSEvent → Bool
  | .synthesisCompleted => true
  | .synthesisError => true
  | _ => false

/-- The terminal responses of a trace, in order (`true` = completed). -/
def terminalOutcomes (es : List TTSEvent) : List Bool :=
  es.filterMap fun e =>
    match e with
    | .synthesisCompleted => some true
    | .synthesisError => some false
    | _ => none

/-- Protocol conformance (§3 of the spec): the server answers one request at
a time, so a terminal response only arrives while a request is in flight. -/
def conformantB : TTSState → List TTSEvent → Bool
  | _, [] => true
  | s, e :: es =>
    (!isTerminalResponse e || s.isProcessing) && conformantB (step s e) es

/-! ### `setVoice` and `speak`'s voice-resolution phase (`tts.ts`) -/

/-- The first relevant thing that happens after `set_voice` is sent: a
`voice_changed` message, an `error` message, or the 5-second timeout. -/
inductive VoiceWaitOutcome where
  | voiceChanged
  | errorMsg
  | timedOut
deriving DecidableEq

/-- Method `setVoice(voice)`: throws immediately when the socket is not open,
otherwise resolves on `voice_changed`, rejects on `error`, and rejects
with the timeout error when neither arrives within 5 s. -/
def setVoice (wsOpen : Bool) (outcome : VoiceWaitOutcome) : Except String Unit :=
  if !wsOpen then .error "TTS WebSocket not connected"
  else
    match outcome with
    | .voiceChanged => .ok ()
    | .errorMsg => .error "Failed to set voice"
    | .timedOut => .error "Voice change timeout"

/-- The fixed language→voice table of `getVoiceForLanguage`, with the
`af_sky` default. -/
def getVoiceForLanguage (languageCode : String) : String :=
  match languageCode with
  | "en" => "af_sky"
  | "es" => "ef_dora"
  | "fr" => "ff_siwis"
  | "de" => "af_sky"
  | "it" => "if_sara"
  | "pt" => "pf_dora"
  | "ru" => "af_sky"
  | "ja" => "jf_alpha"
  | "ko" => "af_sky"
  | "zh" => "zf_xiaoni"
  | "ar" => "af_sky"
  | "hi" => "hf_alpha"
  | _ => "af_sky"

/-- The fixed language→synthesis-locale table of `getKokoroxLanguage`, with
the `en-us` default. -/
def getKokoroxLanguage (languageCode : String) : String :=
  match languageCode with
  | "en" => "en-us"
  | "es" => "es"
  | "fr" => "fr"
  | "de" => "de"
  | "it" => "it"
  | "pt" => "pt-br"
  | "ru" => "en-us"
  | "ja" => "ja"
  | "ko" => "en-us"
  | "zh" => "zh-cn"
  | "ar" => "en-us"
  | "hi" => "hi"
  | _ => "en-us"

/-- The voice-selection state mutated only by confirmed server responses. -/
structure VoiceState where
  currentVoice : String
  availableVoices : List String

/-- The voice-resolution phase of `speak` (before the item is enqueued):
when a language code is given and the mapped voice differs from the current
one and is available, `setVoice` is awaited inside `try { } catch { }`.
Returns the `setVoice` result (when one was attempted) and whether `speak`
goes on to enqueue its item — which it does on every path, because the
`catch` only logs. -/
def speakVoicePhase (vs : VoiceState) (languageCode : Option String) (wsOpen : Bool)
    (outcome : VoiceWaitOutcome) : Option (Except String Unit) × Bool :=
  match languageCode with
  | none => (none, true)
  | some lc =>
    let voice := getVoiceForLanguage lc
    if voice ≠ vs.currentVoice then
      if vs.availableVoices.contains voice then
        (some (setVoice wsOpen outcome), true)
      else (none, true)
    else (none, true)

/-! ### Inbound message handling (`TranslationApp.tsx` / `tts.ts`) -/

/-- A raw WebSocket text frame: either valid JSON decoding to a message, or
malformed. -/
inductive WireFrame (α : Type) where
  | valid (msg : α)
  | malformedJson
deriving DecidableEq

/-- What becomes of an inbound frame in an `onmessage` handler. -/
inductive HandlerOutcome (α : Type) where
  | handled (msg : α)
  | droppedLogged
  | uncaughtException
deriving DecidableEq

/-- The STT socket's `onmessage` (in `connectWebSocket`): `JSON.parse` and
`handleEarsMessage` inside `try { } catch { console.error(...) }`. -/
def sttOnMessage {α : Type} (frame : WireFrame α) : HandlerOutcome α :=
  match frame with
  | .valid m => .handled m
  | .malformedJson => .droppedLogged

/-- The TTS socket's `onmessage` (in `TTSService.connect`): `JSON.parse`
followed by `handleMessage`, with no surrounding `try`/`catch` — a parse
failure propagates out of the handler. -/
def ttsOnMessage {α : Type} (frame : WireFrame α) : HandlerOutcome α :=
  match frame with
  | .valid m => .handled m
  | .malformedJson => .uncaughtException

/-! ### Decimal rendering of `Nat` (for `Date.now().toString()` ids) -/

/-- Structural decimal digit list of a natural number (most significant
first), agreeing with `Nat.toDigits 10`. -/
def reprDigits (n : Nat) : List Char :=
  if _h : n < 10 then [Nat.digitChar n]
  else reprDigits (n / 10) ++ [Nat.digitChar (n % 10)]
decreasing_by exact Nat.div_lt_self (by omega) (by omega)

/-- Numeric value of a decimal digit character. -/
def decodeDigit (c : Char) : Nat := c.toNat - '0'.toNat

/-- Decimal value of a digit list (most significant first). -/
def evalDigits (l : List Char) : Nat :=
  l.foldl (fun acc c => acc * 10 + decodeDigit c) 0


/-! ## Claim C2 — STT reconnect backoff -/

/-- C2: an unexpected close with the attempt counter below the maximum (5)
schedules one reconnect after `min(1000 * 2^attempt, 30000)` ms and then
increments the counter — so repeated immediate closes yield the delays
1000, 2000, 4000, 8000, 16000 ms and then nothing; once the maximum is
reached no reconnect is scheduled; a successful open resets the counter. -/
theorem stt_reconnect_backoff :
    (∀ a, a < maxReconnectAttempts →
      handleClose a = (some (min (1000 * 2 ^ a) 30000), a + 1)) ∧
    (∀ a, maxReconnectAttempts ≤ a → handleClose a = (none, a)) ∧
    repeatedCloses 6 0 =
      [some 1000, some 2000, some 4000, some 8000, some 16000, none] ∧
    (∀ a, handleOpen a = 0) := by
  refine ⟨fun a h => ?_, fun a h => ?_, by decide, fun a => rfl⟩
  · simp [handleClose, h]
  · simp [handleClose, Nat.not_lt.mpr h]

/-- C2 witness: the fourth close (attempt counter 3) schedules a reconnect
after `min(1000 * 2^3, 30000) = 8000` ms and bumps the counter to 4. -/
theorem stt_reconnect_backoff_witness :
    3 < maxReconnectAttempts ∧
      handleClose 3 = (some (min (1000 * 2 ^ 3) 30000), 3 + 1) :=
  ⟨by decide, stt_reconnect_backoff.1 3 (by decide)⟩

/-! ## Claim C6 — resampler -/

/-- C6: for `N` input samples at rates `Fs`, `Ft` (both positive), `resample`
returns exactly `round(N * Ft / Fs)` samples; output sample `i` is the linear
interpolation of the two nearest source samples at source position
`i * Fs / Ft`, upper index clamped at the boundary; for `Fs = Ft` the output
is the input, exactly.  `resample` is a total Lean function, so it is
deterministic and has no failure modes by construction. -/
theorem resample_spec (samples : List ℚ) (fromRate toRate : ℚ)
    (hf : 0 < fromRate) (ht : 0 < toRate) :
    (resample samples fromRate toRate).length =
      (jsMathRound ((samples.length : ℚ) * toRate / fromRate)).toNat ∧
    (∀ i, i < (resample samples fromRate toRate).length →
      (resample samples fromRate toRate)[i]? =
        some (linearInterpAt samples ((i : ℚ) * (fromRate / toRate)))) ∧
    (fromRate = toRate → resample samples fromRate toRate = samples) := by
  have hf0 : fromRate ≠ 0 := ne_of_gt hf
  have ht0 : toRate ≠ 0 := ne_of_gt ht
  by_cases heq : fromRate = toRate
  · subst heq
    have hid : resample samples fromRate fromRate = samples := by simp [resample]
    have hround : ∀ n : ℕ, jsMathRound (n : ℚ) = n := by
      intro n
      rw [jsMathRound, Int.floor_eq_iff]
      constructor
      · push_cast; linarith
      · push_cast; linarith
    refine ⟨?_, ?_, fun _ => hid⟩
    · rw [hid, mul_div_assoc, div_self hf0, mul_one, hround]
      simp
    · intro i hi
      rw [hid] at hi ⊢
      have hpos : ((i : ℚ) * (fromRate / fromRate)) = (i : ℚ) := by
        rw [div_self hf0, mul_one]
      rw [hpos]
      have hfl : Int.floor ((i : ℚ)) = (i : ℤ) := Int.floor_natCast i
      have : linearInterpAt samples (i : ℚ) = samples.getD i 0 := by
        simp only [linearInterpAt, hfl]
        simp
      rw [this, List.getElem?_eq_getElem hi, List.getD_eq_getElem?_getD,
        List.getElem?_eq_getElem hi]
      rfl
  · have hresample : resample samples fromRate toRate =
        (List.range ((jsMathRound ((samples.length : ℚ) / (fromRate / toRate))).toNat)).map
          (fun (i : ℕ) => linearInterpAt samples ((i : ℚ) * (fromRate / toRate))) := by
      simp only [resample, if_neg heq]
    have hdiv : (samples.length : ℚ) / (fromRate / toRate) =
        (samples.length : ℚ) * toRate / fromRate := div_div_eq_mul_div _ _ _
    refine ⟨?_, ?_, fun h => absurd h heq⟩
    · rw [hresample, List.length_map, List.length_range, hdiv]
    · intro i hi
      rw [hresample] at hi ⊢
      rw [List.length_map, List.length_range] at hi
      rw [List.getElem?_map, List.getElem?_range hi]
      rfl

/-- C6 witness: the spec's own test vector — 4 samples, 48000 → 24000 Hz. -/
theorem resample_spec_witness :
    (0 : ℚ) < 48000 ∧ (0 : ℚ) < 24000 ∧
    ((resample [0, 2, 4, 6] 48000 24000).length =
        (jsMathRound (((4 : ℕ) : ℚ) * 24000 / 48000)).toNat ∧
      (∀ i, i < (resample [0, 2, 4, 6] 48000 24000).length →
        (resample [0, 2, 4, 6] 48000 24000)[i]? =
          some (linearInterpAt [0, 2, 4, 6] ((i : ℚ) * (48000 / 24000)))) ∧
      ((48000 : ℚ) = 24000 → resample [0, 2, 4, 6] 48000 24000 = [0, 2, 4, 6])) :=
  ⟨by decide, by decide,
    resample_spec [0, 2, 4, 6] 48000 24000 (by decide) (by decide)⟩

/-! ## Claim C3 — word-event flush triggers -/

/-- C3: appending a word to the pending buffer flushes exactly one segment
immediately — with `originalText` the trimmed buffer and the buffer reset to
empty — precisely when the trimmed buffer ends in a sentence-terminal mark
(`. ! ? 。 ！ ？`) or the whitespace-separated word count has reached the
configured maximum; otherwise no segment is emitted by that word (the idle
timer is merely restarted). -/
theorem word_event_flush (maxWords now : Nat) (st : AppState) (word : String) :
    ((detectSentenceEnd (st.currentOriginal ++ " " ++ word) = true ∨
        countWords (st.currentOriginal ++ " " ++ word) ≥ maxWords) →
      (handleWord maxWords now st word).segments =
          st.segments ++ [mkSegment now (jsTrim (st.currentOriginal ++ " " ++ word))] ∧
        (handleWord maxWords now st word).currentOriginal = "" ∧
        (handleWord maxWords now st word).timer = none) ∧
    (detectSentenceEnd (st.currentOriginal ++ " " ++ word) = false ∧
        countWords (st.currentOriginal ++ " " ++ word) < maxWords →
      (handleWord maxWords now st word).segments = st.segments ∧
        (handleWord maxWords now st word).currentOriginal =
          st.currentOriginal ++ " " ++ word ∧
        (handleWord maxWords now st word).timer =
          some (st.currentOriginal ++ " " ++ word)) := by
  constructor
  · intro h
    have htrig : shouldTriggerTranslation maxWords (st.currentOriginal ++ " " ++ word) = true := by
      rcases h with h | h
      · simp [shouldTriggerTranslation, h]
      · simp [shouldTriggerTranslation, h]
    simp [handleWord, htrig]
  · rintro ⟨h1, h2⟩
    have htrig : shouldTriggerTranslation maxWords (st.currentOriginal ++ " " ++ word) = false := by
      simp [shouldTriggerTranslation, h1, Nat.not_le.mpr h2]
    simp [handleWord, htrig]

/-- C3 witness: from the empty buffer, the word `"Hi."` trips the
sentence-end trigger and flushes the single segment `"Hi."`. -/
theorem word_event_flush_witness :
    (detectSentenceEnd (initApp.currentOriginal ++ " " ++ "Hi.") = true ∨
        countWords (initApp.currentOriginal ++ " " ++ "Hi.") ≥ 30) ∧
      ((handleWord 30 7 initApp "Hi.").segments =
          initApp.segments ++
            [mkSegment 7 (jsTrim (initApp.currentOriginal ++ " " ++ "Hi."))] ∧
        (handleWord 30 7 initApp "Hi.").currentOriginal = "" ∧
        (handleWord 30 7 initApp "Hi.").timer = none) :=
  ⟨Or.inl (by decide), (word_event_flush 30 7 initApp "Hi.").1 (Or.inl (by decide))⟩

/-! ## Claim C4 — final-event flush -/

/-- A state with a nonempty pending buffer and an armed idle timer. -/
def pendingState : AppState := ⟨"pending words", [], some "pending words"⟩

/-- C4 counterexample: a `final` event with empty `text` does not cancel the
timer, does not clear the buffer and does not flush (the `message.text`
truthiness guard skips the branch entirely); and when a `final` event does
flush, the segment's `originalText` is the trimmed *event text*, not the
pending transcript buffer. -/
theorem final_event_flush_counterexample :
    handleFinal 5 pendingState (some "") = pendingState ∧
    pendingState.currentOriginal ≠ "" ∧
    pendingState.timer ≠ none ∧
    (handleFinal 7 pendingState (some "server text")).segments.map Segment.original =
      ["server text"] ∧
    "server text" ≠ jsTrim pendingState.currentOriginal :=
  ⟨by decide, by decide, by decide, by decide, by decide⟩

/-- C4 amended: for every `final` event whose `text` payload is nonempty,
the pending idle timer is cancelled, the buffer is cleared, and exactly one
segment is appended with `originalText` equal to the trimmed *event text* —
unless that trims to empty, in which case no segment is produced (timer
still cancelled, buffer still cleared).  A `final` event with an empty or
absent `text` is ignored entirely: timer, buffer and segments all keep
their values. -/
theorem final_event_flush (now : Nat) (st : AppState) (text : String) :
    (text = "" → handleFinal now st (some text) = st) ∧
    handleFinal now st none = st ∧
    (text ≠ "" →
      (handleFinal now st (some text)).timer = none ∧
        (handleFinal now st (some text)).currentOriginal = "" ∧
        (handleFinal now st (some text)).segments =
          st.segments ++
            (if jsTrim text = "" then [] else [mkSegment now (jsTrim text)])) := by
  refine ⟨fun h => by simp [handleFinal, h], rfl, fun h => ?_⟩
  simp only [handleFinal, if_neg h]
  refine ⟨trivial, trivial, ?_⟩
  split <;> simp

/-- C4 witness: a nonempty final event flushes the trimmed event text and
clears timer and buffer. -/
theorem final_event_flush_witness :
    ("server text" : String) ≠ "" ∧
      ((handleFinal 7 pendingState (some "server text")).timer = none ∧
        (handleFinal 7 pendingState (some "server text")).currentOriginal = "" ∧
        (handleFinal 7 pendingState (some "server text")).segments =
          pendingState.segments ++
            (if jsTrim "server text" = "" then []
             else [mkSegment 7 (jsTrim "server text")])) :=
  ⟨by decide, (final_event_flush 7 pendingState "server text").2.2 (by decide)⟩

/-! ## Claim C5 — translation dispatch frame effect -/

/-- C5: a completed dispatch updates, by id and in place, only the matching
segment's `translatedText` (position `i` of the new collection is position
`i` of the old, updated exactly when its id matches); the length — and hence
insertion order — is preserved; an `error` result or a thrown exception
leaves the segment collection entirely unchanged; and exactly one
translation call is issued per dispatch (no automatic retry). -/
theorem translate_dispatch (pending : List String) (segs : List Segment)
    (segmentId : String) (hp : segmentId ∉ pending) :
    (∀ (t : String) (i : Nat),
      ((translateAsync pending segs segmentId (.success t)).2.1)[i]? =
        (segs[i]?).map fun (seg : Segment) =>
          if seg.id = segmentId then { seg with translated := t } else seg) ∧
    (∀ t, ((translateAsync pending segs segmentId (.success t)).2.1).length =
        segs.length) ∧
    (∀ e, (translateAsync pending segs segmentId (.errorResult e)).2.1 = segs) ∧
    (∀ e, (translateAsync pending segs segmentId (.thrown e)).2.1 = segs) ∧
    (∀ outcome, (translateAsync pending segs segmentId outcome).2.2 = 1) := by
  refine ⟨?_, ?_, ?_, ?_, ?_⟩
  · intro t i
    simp [translateAsync, hp, applyTranslation]
  · intro t
    simp [translateAsync, hp, applyTranslation]
  · intro e
    simp [translateAsync, hp]
  · intro e
    simp [translateAsync, hp]
  · intro outcome
    cases outcome <;> simp [translateAsync, hp]

/-- C5 witness: with two segments present, a success for the second updates
exactly it, matched by id. -/
theorem translate_dispatch_witness :
    ("2" : String) ∉ ([] : List String) ∧
      ((translateAsync [] [⟨"1", "a", "", 1⟩, ⟨"2", "b", "", 2⟩] "2"
            (.success "X")).2.1)[1]? =
        (([⟨"1", "a", "", 1⟩, ⟨"2", "b", "", 2⟩] :
            List Segment)[1]?).map fun (seg : Segment) =>
          if seg.id = "2" then { seg with translated := "X" } else seg :=
  ⟨by decide,
    (translate_dispatch [] [⟨"1", "a", "", 1⟩, ⟨"2", "b", "", 2⟩] "2"
      (by decide)).1 "X" 1⟩

/-! ## Claim C7 — setVoice behaviour -/

/-- C7: with the socket open, `setVoice` resolves when `voice_changed`
arrives first, rejects when `error` arrives first, and rejects with the
timeout error when neither arrives within 5 s; with the socket not open it
fails immediately with the not-connected error.  In every case `speak`'s
voice-resolution phase still proceeds to enqueue the item (the `setVoice`
await sits inside `try`/`catch`), so a `setVoice` failure never blocks
subsequent `speak` calls. -/
theorem setVoice_behavior :
    (∀ outcome, setVoice false outcome = .error "TTS WebSocket not connected") ∧
    setVoice true .voiceChanged = .ok () ∧
    setVoice true .errorMsg = .error "Failed to set voice" ∧
    setVoice true .timedOut = .error "Voice change timeout" ∧
    (∀ vs languageCode wsOpen outcome,
      (speakVoicePhase vs languageCode wsOpen outcome).2 = true) := by
  refine ⟨fun o => by cases o <;> rfl, rfl, rfl, rfl, fun vs lc ws o => ?_⟩
  cases lc with
  | none => rfl
  | some c =>
    simp only [speakVoicePhase]
    split
    · split <;> rfl
    · rfl

/-! ## Claim C8 — malformed inbound JSON -/

/-- C8 counterexample: on the TTS session, a malformed frame is *not*
dropped-and-logged — `JSON.parse` runs outside any `try`/`catch` in
`TTSService.connect`'s `onmessage`, so the parse error escapes the
handler. -/
theorem malformed_json_counterexample :
    ttsOnMessage (α := Unit) .malformedJson = .uncaughtException ∧
    (HandlerOutcome.uncaughtException : HandlerOutcome Unit) ≠ .droppedLogged :=
  ⟨rfl, by decide⟩

/-- C8 amended: on the STT session a malformed frame is caught, logged and
dropped (never reaching `handleEarsMessage`); on the TTS session the parse
is unguarded, so a malformed frame raises an uncaught exception out of the
message handler instead of being dropped silently.  Valid frames are handed
to the respective message handler on both sessions. -/
theorem malformed_json_handling :
    (∀ (α : Type), sttOnMessage (α := α) .malformedJson = .droppedLogged) ∧
    (∀ (α : Type), ttsOnMessage (α := α) .malformedJson = .uncaughtException) ∧
    (∀ (α : Type) (m : α),
      sttOnMessage (.valid m) = .handled m ∧ ttsOnMessage (.valid m) = .handled m) :=
  ⟨fun _ => rfl, fun _ => rfl, fun _ _ => ⟨rfl, rfl⟩⟩

/-! ## Decimal-id lemmas (for the `Date.now().toString()` segment ids) -/

/-- A decimal digit character decodes back to its value. -/
theorem decodeDigit_digitChar {d : Nat} (h : d < 10) :
    decodeDigit (Nat.digitChar d) = d := by
  interval_cases d <;> decide

/-- Appending one digit multiplies the decoded value by ten and adds it. -/
theorem evalDigits_append (l : List Char) (c : Char) :
    evalDigits (l ++ [c]) = evalDigits l * 10 + decodeDigit c := by
  simp [evalDigits, List.foldl_append]

/-- Evaluation inverts rendering: `evalDigits` undoes `reprDigits`. -/
theorem evalDigits_reprDigits (n : Nat) : evalDigits (reprDigits n) = n := by
  induction n using Nat.strong_induction_on with
  | _ n ih =>
    rw [reprDigits]
    split
    · next h => simp [evalDigits, decodeDigit_digitChar h]
    · next h =>
      rw [evalDigits_append, ih (n / 10) (Nat.div_lt_self (by omega) (by omega)),
        decodeDigit_digitChar (Nat.mod_lt n (by omega))]
      omega

/-- Distinct numbers have distinct decimal digit lists. -/
theorem reprDigits_injective : Function.Injective reprDigits := by
  intro a b h
  have ha := evalDigits_reprDigits a
  rw [h, evalDigits_reprDigits] at ha
  omega

/-- With enough fuel, core's `Nat.toDigitsCore` computes `reprDigits`. -/
theorem toDigitsCore_eq_reprDigits :
    ∀ (fuel n : Nat) (ds : List Char), 0 < fuel → n < 10 ^ fuel →
      Nat.toDigitsCore 10 fuel n ds = reprDigits n ++ ds := by
  intro fuel
  induction fuel with
  | zero => intro n ds h _; omega
  | succ f ih =>
    intro n ds _ hlt
    rw [Nat.toDigitsCore]
    by_cases h0 : n / 10 = 0
    · have hn : n < 10 := by
        rcases Nat.div_eq_zero_iff (by omega) |>.mp h0 with h | h <;> omega
      rw [if_pos h0, reprDigits, dif_pos hn, Nat.mod_eq_of_lt hn]
      rfl
    · have hn : ¬ n < 10 := fun hlt10 => h0 (Nat.div_eq_of_lt hlt10)
      have hf : 0 < f := by
        rcases Nat.eq_zero_or_pos f with rfl | hf
        · simp at hlt; omega
        · exact hf
      have hdiv : n / 10 < 10 ^ f := by
        rw [Nat.div_lt_iff_lt_mul (by omega)]
        calc n < 10 ^ (f + 1) := hlt
        _ = 10 ^ f * 10 := by rw [Nat.pow_succ]
      rw [if_neg h0, ih (n / 10) (Nat.digitChar (n % 10) :: ds) hf hdiv]
      conv_rhs => rw [reprDigits, dif_neg hn]
      simp

/-- Core `Nat.repr` renders exactly the structural digit list. -/
theorem natRepr_eq_reprDigits (n : Nat) : Nat.repr n = (reprDigits n).asString := by
  have hfuel : n < 10 ^ (n + 1) := by
    calc n < 10 ^ n := Nat.lt_pow_self (by omega) n
    _ ≤ 10 ^ (n + 1) := Nat.pow_le_pow_right (by omega) (Nat.le_succ n)
  rw [Nat.repr, Nat.toDigits, toDigitsCore_eq_reprDigits (n + 1) n [] (Nat.succ_pos n) hfuel,
    List.append_nil]

/-- Id rendering `Date.now().toString()` is injective: distinct millisecond timestamps
render to distinct id strings. -/
theorem natRepr_injective : Function.Injective Nat.repr := by
  intro a b h
  rw [natRepr_eq_reprDigits, natRepr_eq_reprDigits] at h
  apply reprDigits_injective
  simpa [List.asString] using congrArg String.data h

/-! ## Claim C9 — segment id uniqueness -/

/-- C9 counterexample: two word-trigger flushes processed in the same
millisecond (`Date.now() = 1000` for both) create two segments with the
identical id `"1000"`, so segment ids are not pairwise distinct in every
reachable state. -/
theorem segment_ids_unique_counterexample :
    ((runApp 30 initApp [(1000, .word "Hi."), (1000, .word "Yo.")]).segments.map
        Segment.id) = ["1000", "1000"] ∧
    ¬ ((runApp 30 initApp
          [(1000, .word "Hi."), (1000, .word "Yo.")]).segments.map
            Segment.id).Pairwise (· ≠ ·) :=
  ⟨by decide, by decide⟩

/-- Every step appends at most one segment, created at the step's time. -/
theorem stepApp_segments (maxWords now : Nat) (st : AppState) (e : AppEvent) :
    (stepApp maxWords st now e).segments = st.segments ∨
    ∃ txt, (stepApp maxWords st now e).segments = st.segments ++ [mkSegment now txt] := by
  cases e with
  | word w =>
    by_cases htrig :
        shouldTriggerTranslation maxWords (st.currentOriginal ++ " " ++ w) = true
    · exact Or.inr ⟨jsTrim (st.currentOriginal ++ " " ++ w),
        by simp [stepApp, handleWord, htrig]⟩
    · exact Or.inl (by simp [stepApp, handleWord, htrig])
  | finalMsg t =>
    cases t with
    | none => exact Or.inl rfl
    | some s =>
      by_cases hs : s = ""
      · exact Or.inl (by simp [stepApp, handleFinal, hs])
      · by_cases hT : jsTrim s = ""
        · exact Or.inl (by simp [stepApp, handleFinal, hs, hT])
        · exact Or.inr ⟨jsTrim s, by simp [stepApp, handleFinal, hs, hT]⟩
  | timerExpire =>
    cases htimer : st.timer with
    | none => exact Or.inl (by simp [stepApp, timerFire, htimer])
    | some text =>
      by_cases hT : jsTrim text = ""
      · exact Or.inl (by simp [stepApp, timerFire, htimer, hT])
      · exact Or.inr ⟨jsTrim text, by simp [stepApp, timerFire, htimer, hT]⟩

/-- Invariant run: when the existing segment timestamps followed by the
upcoming event timestamps are strictly increasing, every reachable segment
has `id = Nat.repr timestamp` and segment timestamps stay strictly
increasing. -/
theorem runApp_segment_invariant (maxWords : Nat) :
    ∀ (tr : List (Nat × AppEvent)) (st : AppState),
      (∀ seg ∈ st.segments, seg.id = Nat.repr seg.timestamp) →
      ((st.segments.map Segment.timestamp) ++ tr.map Prod.fst).Pairwise (· < ·) →
      (∀ seg ∈ (runApp maxWords st tr).segments, seg.id = Nat.repr seg.timestamp) ∧
        ((runApp maxWords st tr).segments.map Segment.timestamp).Pairwise (· < ·) := by
  intro tr
  induction tr with
  | nil =>
    intro st hid hsort
    rw [List.map_nil, List.append_nil] at hsort
    exact ⟨hid, hsort⟩
  | cons p rest ih =>
    intro st hid hsort
    obtain ⟨now, e⟩ := p
    rw [List.map_cons] at hsort
    have hrun : runApp maxWords st ((now, e) :: rest) =
        runApp maxWords (stepApp maxWords st now e) rest := rfl
    rw [hrun]
    rcases stepApp_segments maxWords now st e with hsame | ⟨txt, happ⟩
    · refine ih (stepApp maxWords st now e) ?_ ?_
      · intro seg hseg
        exact hid seg (hsame ▸ hseg)
      · rw [hsame]
        exact List.Pairwise.sublist
          (List.Sublist.append_left (List.sublist_cons_self now _) _) hsort
    · refine ih (stepApp maxWords st now e) ?_ ?_
      · intro seg hseg
        rw [happ] at hseg
        rcases List.mem_append.mp hseg with h | h
        · exact hid seg h
        · simp only [List.mem_singleton] at h
          subst h
          rfl
      · rw [happ]
        simpa [mkSegment, List.append_assoc] using hsort

/-- C9 amended: segment ids are creation-time-derived
(`id = Date.now().toString()`), so along any run whose events are processed
at strictly increasing millisecond timestamps — covering all three creation
paths — the ids are pairwise distinct and order the segments by creation
time; only two segments created within the same millisecond receive the
same id (see the counterexample). -/
theorem segment_ids_unique (maxWords : Nat) (tr : List (Nat × AppEvent))
    (h : (tr.map Prod.fst).Pairwise (· < ·)) :
    (∀ seg ∈ (runApp maxWords initApp tr).segments, seg.id = Nat.repr seg.timestamp) ∧
    ((runApp maxWords initApp tr).segments.map Segment.timestamp).Pairwise (· < ·) ∧
    ((runApp maxWords initApp tr).segments.map Segment.id).Pairwise (· ≠ ·) := by
  have base := runApp_segment_invariant maxWords tr initApp
    (by simp [initApp]) (by simpa [initApp] using h)
  refine ⟨base.1, base.2, ?_⟩
  have hts : (runApp maxWords initApp tr).segments.Pairwise
      (fun a b => a.timestamp < b.timestamp) := List.pairwise_map.mp base.2
  rw [List.pairwise_map]
  refine List.Pairwise.imp_of_mem ?_ hts
  intro a b ha hb hlt
  rw [base.1 a ha, base.1 b hb]
  exact fun hEq => Nat.lt_irrefl _ (natRepr_injective hEq ▸ hlt)

/-- C9 witness: two flushes at distinct timestamps 1000 and 1001 yield
segments with distinct, creation-ordered ids. -/
theorem segment_ids_unique_witness :
    (([(1000, AppEvent.word "Hi."), (1001, AppEvent.word "Yo.")].map
        Prod.fst).Pairwise (· < ·)) ∧
    ((∀ seg ∈ (runApp 30 initApp
          [(1000, .word "Hi."), (1001, .word "Yo.")]).segments,
        seg.id = Nat.repr seg.timestamp) ∧
      ((runApp 30 initApp
          [(1000, .word "Hi."), (1001, .word "Yo.")]).segments.map
            Segment.timestamp).Pairwise (· < ·) ∧
      ((runApp 30 initApp
          [(1000, .word "Hi."), (1001, .word "Yo.")]).segments.map
            Segment.id).Pairwise (· ≠ ·)) :=
  ⟨by decide,
    segment_ids_unique 30 [(1000, .word "Hi."), (1001, .word "Yo.")] (by decide)⟩

/-! ## TTS queue invariant (for Claims C1 and C10) -/

/-- Tokens of the items currently in the synthesis text queue. -/
def queueTokens (s : TTSState) : List Nat := s.textQueue.map QItem.token

/-- Tokens of the promises already settled (resolved or rejected). -/
def settledTokens (s : TTSState) : List Nat := s.settled.map Prod.fst

/-- Invariant of the `TTSService` along connected, `speak`/terminal-response
traces: the queue is the unsettled suffix of the `speak` log, the sent
`synthesize` commands are a prefix of the `speak` log's commands, at most one
request is unanswered, and promises settle in token order. -/
structure CoreInv (s : TTSState) : Prop where
  ws : s.wsOpen = true
  tokens : s.spoken.map QItem.token = List.range s.spoken.length
  queue : s.textQueue = s.spoken.drop s.settled.length
  sentPrefix : s.sent = (s.spoken.map QItem.toCmd).take s.sent.length
  sentLen : s.sent.length = s.settled.length + (if s.isProcessing then 1 else 0)
  settledFst : s.settled.map Prod.fst = List.range s.settled.length
  settledLe : s.settled.length ≤ s.spoken.length
  procIff : s.isProcessing = true ↔ s.textQueue ≠ []

/-- The fresh connection state satisfies the queue invariant. -/
theorem coreInv_init : CoreInv initTTS := by
  constructor <;> simp [initTTS]

/-- Dropping one more element after a cons-shaped drop. -/
theorem drop_succ_of_drop_eq_cons {α : Type} {l : List α} {k : Nat} {a : α}
    {rest : List α} (h : l.drop k = a :: rest) : l.drop (k + 1) = rest := by
  have h1 := congrArg (List.drop 1) h
  simpa [List.drop_drop] using h1

/-- The element at the position of a cons-shaped drop. -/
theorem getElem?_of_drop_eq_cons {α : Type} {l : List α} {k : Nat} {a : α}
    {rest : List α} (h : l.drop k = a :: rest) : l[k]? = some a := by
  have h1 := congrArg (fun t : List α => t[0]?) h
  simpa [List.getElem?_drop] using h1

/-- Under the invariant, the queue head's token is the settled count. -/
theorem head_token_eq (s : TTSState) (h : CoreInv s) {item : QItem} {rest : List QItem}
    (hq : s.textQueue = item :: rest) : item.token = s.settled.length := by
  have hdrop : s.spoken.drop s.settled.length = item :: rest := by rw [← h.queue, hq]
  have hkn : s.settled.length < s.spoken.length := by
    by_contra hle
    rw [List.drop_eq_nil_of_le (Nat.le_of_not_lt hle)] at hdrop
    exact List.noConfusion hdrop
  have hitem : s.spoken[s.settled.length]? = some item := getElem?_of_drop_eq_cons hdrop
  have hmap := congrArg (fun l : List Nat => l[s.settled.length]?) h.tokens
  simpa [List.getElem?_map, hitem, List.getElem?_range hkn] using hmap

/-- Method `speak` preserves the queue invariant and settles nothing. -/
theorem coreInv_speak (s : TTSState) (text : String) (lang : Option String)
    (h : CoreInv s) :
    CoreInv (speak s text lang) ∧ (speak s text lang).settled = s.settled := by
  by_cases hproc : s.isProcessing = true
  · have hkn : s.settled.length < s.spoken.length := by
      have hq : s.textQueue ≠ [] := h.procIff.mp hproc
      rw [h.queue] at hq
      by_contra hle
      exact hq (List.drop_eq_nil_of_le (Nat.le_of_not_lt hle))
    have hm : s.sent.length = s.settled.length + 1 := by simpa [hproc] using h.sentLen
    have hspeak : speak s text lang =
        { s with textQueue := s.textQueue ++ [⟨text, lang, s.spoken.length⟩],
                 spoken := s.spoken ++ [⟨text, lang, s.spoken.length⟩] } := by
      simp [speak, hproc]
    rw [hspeak]
    refine ⟨⟨h.ws, ?_, ?_, ?_, ?_, h.settledFst, ?_, ?_⟩, rfl⟩
    · simp [h.tokens, List.range_succ]
    · simp only [h.queue]
      rw [List.drop_append_of_le_length h.settledLe]
    · simp only [List.map_append]
      rw [List.take_append_of_le_length (by simp; omega)]
      exact h.sentPrefix
    · simpa [hproc] using h.sentLen
    · simp
      omega
    · simp [hproc]
  · have hproc' : s.isProcessing = false := by
      revert hproc
      cases s.isProcessing <;> simp
    have hqnil : s.textQueue = [] := by
      by_contra hne
      rw [h.procIff.mpr hne] at hproc'
      exact Bool.noConfusion hproc'
    have hdropnil : s.spoken.drop s.settled.length = [] := by rw [← h.queue, hqnil]
    have hkeq : s.settled.length = s.spoken.length :=
      Nat.le_antisymm h.settledLe (List.drop_eq_nil_iff.mp hdropnil)
    have hm : s.sent.length = s.settled.length := by simpa [hproc'] using h.sentLen
    have hsentAll : s.sent = s.spoken.map QItem.toCmd := by
      rw [h.sentPrefix, hm, hkeq]
      exact List.take_of_length_le (by simp)
    have hspeak : speak s text lang =
        { s with textQueue := [⟨text, lang, s.spoken.length⟩],
                 spoken := s.spoken ++ [⟨text, lang, s.spoken.length⟩],
                 isProcessing := true,
                 sent := s.sent ++ [QItem.toCmd ⟨text, lang, s.spoken.length⟩] } := by
      simp [speak, processNextInQueue, hproc', hqnil, h.ws]
    rw [hspeak]
    refine ⟨⟨h.ws, ?_, ?_, ?_, ?_, h.settledFst, ?_, ?_⟩, rfl⟩
    · simp [h.tokens, List.range_succ]
    · rw [List.drop_append_of_le_length h.settledLe, hdropnil]
      simp
    · rw [hsentAll]
      simp
    · simp [hm]
    · simp
      omega
    · simp

/-- Shared invariant argument for both terminal responses: from a state with
a request in flight, shifting and settling the head and then kicking the
queue processor preserves the invariant and settles exactly the head token. -/
theorem coreInv_settle_head (s : TTSState) (h : CoreInv s) (hproc : s.isProcessing = true)
    (b : Bool) (item : QItem) (rest : List QItem) (hq : s.textQueue = item :: rest) :
    CoreInv (processNextInQueue
      { s with textQueue := rest, settled := s.settled ++ [(item.token, b)],
               isProcessing := false }) ∧
    (processNextInQueue
      { s with textQueue := rest, settled := s.settled ++ [(item.token, b)],
               isProcessing := false }).settled =
      s.settled ++ [(s.settled.length, b)] := by
  have htok : item.token = s.settled.length := head_token_eq s h hq
  have hdrop : s.spoken.drop s.settled.length = item :: rest := by rw [← h.queue, hq]
  have hkn : s.settled.length < s.spoken.length := by
    by_contra hle
    rw [List.drop_eq_nil_of_le (Nat.le_of_not_lt hle)] at hdrop
    exact List.noConfusion hdrop
  have hdrop1 : s.spoken.drop (s.settled.length + 1) = rest := drop_succ_of_drop_eq_cons hdrop
  have hm : s.sent.length = s.settled.length + 1 := by simpa [hproc] using h.sentLen
  cases rest with
  | nil =>
    have heq : processNextInQueue
        { s with textQueue := ([] : List QItem),
                 settled := s.settled ++ [(item.token, b)], isProcessing := false } =
        { s with textQueue := [], settled := s.settled ++ [(item.token, b)],
                 isProcessing := false } := by
      simp [processNextInQueue]
    rw [heq, htok]
    refine ⟨⟨h.ws, h.tokens, ?_, ?_, ?_, ?_, ?_, ?_⟩, rfl⟩
    · simp [hdrop1]
    · simpa using h.sentPrefix
    · simp [hm]
    · simp [h.settledFst, List.range_succ]
    · simp
      omega
    · simp
  | cons item2 rest2 =>
    have hkn2 : s.settled.length + 1 < s.spoken.length := by
      by_contra hle
      rw [List.drop_eq_nil_of_le (Nat.le_of_not_lt hle)] at hdrop1
      exact List.noConfusion hdrop1
    have hitem2 : s.spoken[s.settled.length + 1]? = some item2 :=
      getElem?_of_drop_eq_cons hdrop1
    have heq : processNextInQueue
        { s with textQueue := item2 :: rest2,
                 settled := s.settled ++ [(item.token, b)], isProcessing := false } =
        { s with textQueue := item2 :: rest2,
                 settled := s.settled ++ [(item.token, b)],
                 isProcessing := true, sent := s.sent ++ [item2.toCmd] } := by
      simp [processNextInQueue, h.ws]
    rw [heq, htok]
    refine ⟨⟨h.ws, h.tokens, ?_, ?_, ?_, ?_, ?_, ?_⟩, rfl⟩
    · simp [hdrop1]
    · have hcmd : (s.spoken.map QItem.toCmd)[s.settled.length + 1]? =
          some item2.toCmd := by
        rw [List.getElem?_map, hitem2]
        rfl
      simp only [List.length_append, List.length_singleton]
      rw [hm, List.take_succ, hcmd, ← hm, ← h.sentPrefix]
      rfl
    · simp [hm]
    · simp [h.settledFst, List.range_succ]
    · simp
      omega
    · simp

/-- Response `synthesis_completed` with a request in flight preserves the invariant
and resolves exactly the head item's promise. -/
theorem coreInv_completed (s : TTSState) (h : CoreInv s) (hproc : s.isProcessing = true) :
    CoreInv (handleSynthesisCompleted s) ∧
      (handleSynthesisCompleted s).settled = s.settled ++ [(s.settled.length, true)] := by
  obtain ⟨item, rest, hq⟩ := List.exists_cons_of_ne_nil (h.procIff.mp hproc)
  have heq : handleSynthesisCompleted s = processNextInQueue
      { s with textQueue := rest, settled := s.settled ++ [(item.token, true)],
               isProcessing := false } := by
    simp [handleSynthesisCompleted, hq]
  rw [heq]
  exact coreInv_settle_head s h hproc true item rest hq

/-- Response `error` with a request in flight preserves the invariant and rejects
exactly the head item's promise. -/
theorem coreInv_error (s : TTSState) (h : CoreInv s) (hproc : s.isProcessing = true) :
    CoreInv (handleSynthesisError s) ∧
      (handleSynthesisError s).settled = s.settled ++ [(s.settled.length, false)] := by
  obtain ⟨item, rest, hq⟩ := List.exists_cons_of_ne_nil (h.procIff.mp hproc)
  have heq : handleSynthesisError s = processNextInQueue
      { s with textQueue := rest, settled := s.settled ++ [(item.token, false)],
               isProcessing := false } := by
    simp [handleSynthesisError, hq]
  rw [heq]
  exact coreInv_settle_head s h hproc false item rest hq

/-- Running any conformant `speak`/terminal trace preserves the invariant,
and the settled outcomes are exactly the terminal responses, in order. -/
theorem run_core_inv :
    ∀ (es : List TTSEvent) (s : TTSState),
      (∀ e ∈ es, isCoreEvent e = true) →
      conformantB s es = true →
      CoreInv s →
      CoreInv (run s es) ∧
        (run s es).settled.map Prod.snd =
          s.settled.map Prod.snd ++ terminalOutcomes es := by
  intro es
  induction es with
  | nil =>
    intro s _ _ h
    exact ⟨h, by simp [run, terminalOutcomes]⟩
  | cons e rest ih =>
    intro s hcore hconf h
    rw [conformantB, Bool.and_eq_true] at hconf
    obtain ⟨hc1, hc2⟩ := hconf
    have hrest_core : ∀ e' ∈ rest, isCoreEvent e' = true :=
      fun e' he' => hcore e' (List.mem_cons_of_mem _ he')
    have hrun : run s (e :: rest) = run (step s e) rest := rfl
    cases e with
    | speakReq text lang =>
      obtain ⟨hinv', hsettled'⟩ := coreInv_speak s text lang h
      obtain ⟨hfin, hmap⟩ := ih (speak s text lang) hrest_core hc2 hinv'
      refine ⟨hfin, ?_⟩
      rw [hrun]
      show (run (speak s text lang) rest).settled.map Prod.snd = _
      rw [hmap, hsettled']
      simp [terminalOutcomes]
    | synthesisCompleted =>
      have hproc : s.isProcessing = true := by
        simpa [isTerminalResponse] using hc1
      obtain ⟨hinv', hsettled'⟩ := coreInv_completed s h hproc
      obtain ⟨hfin, hmap⟩ := ih (handleSynthesisCompleted s) hrest_core hc2 hinv'
      refine ⟨hfin, ?_⟩
      rw [hrun]
      show (run (handleSynthesisCompleted s) rest).settled.map Prod.snd = _
      rw [hmap, hsettled']
      simp [terminalOutcomes]
    | synthesisError =>
      have hproc : s.isProcessing = true := by
        simpa [isTerminalResponse] using hc1
      obtain ⟨hinv', hsettled'⟩ := coreInv_error s h hproc
      obtain ⟨hfin, hmap⟩ := ih (handleSynthesisError s) hrest_core hc2 hinv'
      refine ⟨hfin, ?_⟩
      rw [hrun]
      show (run (handleSynthesisError s) rest).settled.map Prod.snd = _
      rw [hmap, hsettled']
      simp [terminalOutcomes]
    | audioChunk ok buf =>
      exact absurd (hcore _ (List.mem_cons_self _ _)) (by simp [isCoreEvent])
    | chunkEnded =>
      exact absurd (hcore _ (List.mem_cons_self _ _)) (by simp [isCoreEvent])
    | disconnectReq =>
      exact absurd (hcore _ (List.mem_cons_self _ _)) (by simp [isCoreEvent])

/-! ## Claim C1 — strictly serial FIFO synthesis queue -/

/-- C1: along every trace of `speak` calls and terminal server responses
from a fresh connection, with responses conformant to the one-at-a-time
protocol contract: the `speak` log's tokens are `0, 1, 2, …` in call order;
the sent `synthesize` commands are exactly the commands of the first
`sent.length` speak calls, in FIFO order; the number of settled promises
never lags the number of sent commands by more than one (at most one request
in flight, and the next command is only sent once the previous request got
its terminal response); the promises settle in token order `0, 1, 2, …`;
and the i-th promise resolves exactly when the i-th terminal response is
`synthesis_completed` and rejects exactly when it is `error`.  Since this
holds for every conformant trace, it holds at every intermediate state. -/
theorem tts_synthesis_queue_fifo (es : List TTSEvent)
    (hcore : ∀ e ∈ es, isCoreEvent e = true)
    (hconf : conformantB initTTS es = true) :
    (run initTTS es).spoken.map QItem.token =
      List.range (run initTTS es).spoken.length ∧
    (run initTTS es).sent =
      ((run initTTS es).spoken.map QItem.toCmd).take (run initTTS es).sent.length ∧
    (run initTTS es).settled.length ≤ (run initTTS es).sent.length ∧
    (run initTTS es).sent.length ≤ (run initTTS es).settled.length + 1 ∧
    (run initTTS es).settled.map Prod.fst =
      List.range (run initTTS es).settled.length ∧
    (run initTTS es).settled.map Prod.snd = terminalOutcomes es := by
  obtain ⟨hinv, hmap⟩ := run_core_inv es initTTS hcore hconf coreInv_init
  have hlen := hinv.sentLen
  refine ⟨hinv.tokens, hinv.sentPrefix, ?_, ?_, hinv.settledFst,
    by simpa [initTTS] using hmap⟩
  · cases hp : (run initTTS es).isProcessing <;> rw [hp] at hlen <;> simp at hlen <;> omega
  · cases hp : (run initTTS es).isProcessing <;> rw [hp] at hlen <;> simp at hlen <;> omega

/-- The spec's own scenario: two `speak` calls queued before any response,
then a completed response for the first and an error for the second. -/
def c1Trace : List TTSEvent :=
  [.speakReq "a" none, .speakReq "b" none, .synthesisCompleted, .synthesisError]

/-- C1 witness: on the concrete two-speak trace the hypotheses hold and the
FIFO/serialization conclusions follow. -/
theorem tts_synthesis_queue_fifo_witness :
    (∀ e ∈ c1Trace, isCoreEvent e = true) ∧
    conformantB initTTS c1Trace = true ∧
    ((run initTTS c1Trace).spoken.map QItem.token =
        List.range (run initTTS c1Trace).spoken.length ∧
      (run initTTS c1Trace).sent =
        ((run initTTS c1Trace).spoken.map QItem.toCmd).take
          (run initTTS c1Trace).sent.length ∧
      (run initTTS c1Trace).settled.length ≤ (run initTTS c1Trace).sent.length ∧
      (run initTTS c1Trace).sent.length ≤ (run initTTS c1Trace).settled.length + 1 ∧
      (run initTTS c1Trace).settled.map Prod.fst =
        List.range (run initTTS c1Trace).settled.length ∧
      (run initTTS c1Trace).settled.map Prod.snd = terminalOutcomes c1Trace) :=
  ⟨by decide, by decide, tts_synthesis_queue_fifo c1Trace (by decide) (by decide)⟩

/-! ## Claim C10 — disconnect abandons pending speak promises -/

/-- Method `processNextInQueue` never settles a token that is neither queued nor
settled, never enqueues anything, and leaves the `speak` log alone. -/
theorem processNext_preserves (s : TTSState) (tok : Nat)
    (hq : tok ∉ queueTokens s) (hs : tok ∉ settledTokens s) :
    tok ∉ queueTokens (processNextInQueue s) ∧
    tok ∉ settledTokens (processNextInQueue s) ∧
    (processNextInQueue s).spoken = s.spoken := by
  unfold processNextInQueue
  by_cases h1 : (s.isProcessing || s.textQueue.isEmpty) = true
  · rw [if_pos h1]
    exact ⟨hq, hs, rfl⟩
  · rw [if_neg h1]
    split
    · exact ⟨hq, hs, rfl⟩
    · next item rest hqe =>
      split
      · exact ⟨hq, hs, rfl⟩
      · have hhead : item.token ∈ queueTokens s := by
          rw [queueTokens, hqe]
          exact List.mem_cons_self _ _
        have hrest : tok ∉ rest.map QItem.token := fun hmem => hq (by
          rw [queueTokens, hqe]
          exact List.mem_cons_of_mem _ hmem)
        refine ⟨hrest, ?_, rfl⟩
        intro hmem
        rw [settledTokens] at hmem
        simp only [List.map_append] at hmem
        rcases List.mem_append.mp hmem with h | h
        · exact hs h
        · simp only [List.map_singleton, List.mem_singleton] at h
          exact hq (h ▸ hhead)

/-- Method `processNextInQueue` only ever removes queue items. -/
theorem processNext_queue_sub (s : TTSState) :
    (∀ t ∈ queueTokens (processNextInQueue s), t ∈ queueTokens s) ∧
    (processNextInQueue s).spoken = s.spoken := by
  unfold processNextInQueue
  by_cases h1 : (s.isProcessing || s.textQueue.isEmpty) = true
  · rw [if_pos h1]
    exact ⟨fun t ht => ht, rfl⟩
  · rw [if_neg h1]
    split
    · exact ⟨fun t ht => ht, rfl⟩
    · next item rest hqe =>
      split
      · exact ⟨fun t ht => ht, rfl⟩
      · refine ⟨fun t ht => ?_, rfl⟩
        rw [queueTokens, hqe]
        exact List.mem_cons_of_mem _ ht

/-- Method `playNextChunk` touches only the audio queue and the playing flag. -/
theorem playNextChunk_frame (s : TTSState) :
    (playNextChunk s).textQueue = s.textQueue ∧
    (playNextChunk s).settled = s.settled ∧
    (playNextChunk s).spoken = s.spoken := by
  cases hA : s.audioQueue with
  | nil => simp [playNextChunk, hA]
  | cons a rest => simp [playNextChunk, hA]

/-- Method `handleAudioChunk` touches only the audio queue and the playing flag. -/
theorem handleAudioChunk_frame (s : TTSState) (ok : Bool) (buf : Nat) :
    (handleAudioChunk s ok buf).textQueue = s.textQueue ∧
    (handleAudioChunk s ok buf).settled = s.settled ∧
    (handleAudioChunk s ok buf).spoken = s.spoken := by
  by_cases hok : ok = true
  · by_cases hp : s.isPlaying = true
    · simp [handleAudioChunk, hok, hp]
    · have hf := playNextChunk_frame { s with audioQueue := s.audioQueue ++ [buf] }
      have hred : handleAudioChunk s ok buf =
          playNextChunk { s with audioQueue := s.audioQueue ++ [buf] } := by
        simp [handleAudioChunk, hok, hp]
      rw [hred]
      exact hf
  · simp [handleAudioChunk, hok]

/-- No step of the `TTSService` can settle a token that is neither queued
nor already settled, and the `speak` log only grows. -/
theorem step_never_settles (s : TTSState) (e : TTSEvent) (tok : Nat)
    (hq : tok ∉ queueTokens s) (hs : tok ∉ settledTokens s)
    (hlt : tok < s.spoken.length) :
    tok ∉ queueTokens (step s e) ∧ tok ∉ settledTokens (step s e) ∧
      tok < (step s e).spoken.length := by
  cases e with
  | speakReq text lang =>
    show tok ∉ queueTokens (speak s text lang) ∧
      tok ∉ settledTokens (speak s text lang) ∧ tok < (speak s text lang).spoken.length
    rw [speak]
    set item : QItem := ⟨text, lang, s.spoken.length⟩ with hitem
    set s1 : TTSState :=
      { s with textQueue := s.textQueue ++ [item], spoken := s.spoken ++ [item] } with hs1
    have hq1 : tok ∉ queueTokens s1 := by
      rw [hs1, queueTokens]
      simp only [List.map_append]
      intro hmem
      rcases List.mem_append.mp hmem with h | h
      · exact hq h
      · simp only [hitem, List.map_singleton, List.mem_singleton] at h
        omega
    have hlt1 : tok < s1.spoken.length := by
      rw [hs1]
      simp
      omega
    by_cases hp : s1.isProcessing = true
    · rw [if_pos hp]
      exact ⟨hq1, hs, hlt1⟩
    · rw [if_neg hp]
      obtain ⟨ha, hb, hc⟩ := processNext_preserves s1 tok hq1 hs
      exact ⟨ha, hb, by rw [hc]; exact hlt1⟩
  | synthesisCompleted =>
    show tok ∉ queueTokens (handleSynthesisCompleted s) ∧
      tok ∉ settledTokens (handleSynthesisCompleted s) ∧
      tok < (handleSynthesisCompleted s).spoken.length
    cases hqe : s.textQueue with
    | nil =>
      have heq : handleSynthesisCompleted s =
          processNextInQueue { s with isProcessing := false } := by
        simp [handleSynthesisCompleted, hqe]
      rw [heq]
      obtain ⟨ha, hb, hc⟩ :=
        processNext_preserves { s with isProcessing := false } tok hq hs
      exact ⟨ha, hb, by rw [hc]; exact hlt⟩
    | cons item rest =>
      have hhead : item.token ∈ queueTokens s := by
        rw [queueTokens, hqe]
        exact List.mem_cons_self _ _
      have heq : handleSynthesisCompleted s = processNextInQueue
          { s with textQueue := rest, settled := s.settled ++ [(item.token, true)],
                   isProcessing := false } := by
        simp [handleSynthesisCompleted, hqe]
      rw [heq]
      have hq2 : tok ∉ queueTokens
          { s with textQueue := rest, settled := s.settled ++ [(item.token, true)],
                   isProcessing := false } := fun hmem => hq (by
        rw [queueTokens, hqe]
        exact List.mem_cons_of_mem _ hmem)
      have hs2 : tok ∉ settledTokens
          { s with textQueue := rest, settled := s.settled ++ [(item.token, true)],
                   isProcessing := false } := by
        rw [settledTokens]
        simp only [List.map_append]
        intro hmem
        rcases List.mem_append.mp hmem with h | h
        · exact hs h
        · simp only [List.map_singleton, List.mem_singleton] at h
          exact hq (h ▸ hhead)
      obtain ⟨ha, hb, hc⟩ := processNext_preserves _ tok hq2 hs2
      exact ⟨ha, hb, by rw [hc]; exact hlt⟩
  | synthesisError =>
    show tok ∉ queueTokens (handleSynthesisError s) ∧
      tok ∉ settledTokens (handleSynthesisError s) ∧
      tok < (handleSynthesisError s).spoken.length
    cases hqe : s.textQueue with
    | nil =>
      have heq : handleSynthesisError s =
          processNextInQueue { s with isProcessing := false } := by
        simp [handleSynthesisError, hqe]
      rw [heq]
      obtain ⟨ha, hb, hc⟩ :=
        processNext_preserves { s with isProcessing := false } tok hq hs
      exact ⟨ha, hb, by rw [hc]; exact hlt⟩
    | cons item rest =>
      have hhead : item.token ∈ queueTokens s := by
        rw [queueTokens, hqe]
        exact List.mem_cons_self _ _
      have heq : handleSynthesisError s = processNextInQueue
          { s with textQueue := rest, settled := s.settled ++ [(item.token, false)],
                   isProcessing := false } := by
        simp [handleSynthesisError, hqe]
      rw [heq]
      have hq2 : tok ∉ queueTokens
          { s with textQueue := rest, settled := s.settled ++ [(item.token, false)],
                   isProcessing := false } := fun hmem => hq (by
        rw [queueTokens, hqe]
        exact List.mem_cons_of_mem _ hmem)
      have hs2 : tok ∉ settledTokens
          { s with textQueue := rest, settled := s.settled ++ [(item.token, false)],
                   isProcessing := false } := by
        rw [settledTokens]
        simp only [List.map_append]
        intro hmem
        rcases List.mem_append.mp hmem with h | h
        · exact hs h
        · simp only [List.map_singleton, List.mem_singleton] at h
          exact hq (h ▸ hhead)
      obtain ⟨ha, hb, hc⟩ := processNext_preserves _ tok hq2 hs2
      exact ⟨ha, hb, by rw [hc]; exact hlt⟩
  | audioChunk ok buf =>
    obtain ⟨h1, h2, h3⟩ := handleAudioChunk_frame s ok buf
    refine ⟨?_, ?_, ?_⟩
    · rw [show queueTokens (step s (.audioChunk ok buf)) =
          (handleAudioChunk s ok buf).textQueue.map QItem.token from rfl, h1]
      exact hq
    · rw [show settledTokens (step s (.audioChunk ok buf)) =
          ((handleAudioChunk s ok buf).settled).map Prod.fst from rfl, h2]
      exact hs
    · rw [show (step s (.audioChunk ok buf)).spoken =
          (handleAudioChunk s ok buf).spoken from rfl, h3]
      exact hlt
  | chunkEnded =>
    obtain ⟨h1, h2, h3⟩ := playNextChunk_frame s
    refine ⟨?_, ?_, ?_⟩
    · rw [show queueTokens (step s .chunkEnded) =
          (playNextChunk s).textQueue.map QItem.token from rfl, h1]
      exact hq
    · rw [show settledTokens (step s .chunkEnded) =
          ((playNextChunk s).settled).map Prod.fst from rfl, h2]
      exact hs
    · rw [show (step s .chunkEnded).spoken = (playNextChunk s).spoken from rfl, h3]
      exact hlt
  | disconnectReq =>
    refine ⟨?_, hs, hlt⟩
    simp [queueTokens, step, disconnect]

/-- An unsettled, unqueued token stays unsettled along any further trace. -/
theorem run_never_settles :
    ∀ (es : List TTSEvent) (s : TTSState) (tok : Nat),
      tok ∉ queueTokens s → tok ∉ settledTokens s → tok < s.spoken.length →
      tok ∉ settledTokens (run s es) := by
  intro es
  induction es with
  | nil => intro s tok _ hs _; exact hs
  | cons e rest ih =>
    intro s tok hq hs hlt
    obtain ⟨hq', hs', hlt'⟩ := step_never_settles s e tok hq hs hlt
    exact ih (step s e) tok hq' hs' hlt'

/-- Every step keeps all queued tokens below the `speak`-log length. -/
theorem step_queue_tokens_lt (s : TTSState) (e : TTSEvent)
    (h : ∀ t ∈ queueTokens s, t < s.spoken.length) :
    ∀ t ∈ queueTokens (step s e), t < (step s e).spoken.length := by
  cases e with
  | speakReq text lang =>
    show ∀ t ∈ queueTokens (speak s text lang), t < (speak s text lang).spoken.length
    rw [speak]
    set item : QItem := ⟨text, lang, s.spoken.length⟩ with hitem
    set s1 : TTSState :=
      { s with textQueue := s.textQueue ++ [item], spoken := s.spoken ++ [item] } with hs1
    have h1 : ∀ t ∈ queueTokens s1, t < s1.spoken.length := by
      intro t ht
      rw [hs1, queueTokens] at ht
      simp only [List.map_append] at ht
      rw [hs1]
      simp only [List.length_append, List.length_singleton]
      rcases List.mem_append.mp ht with hmem | hmem
      · have := h t hmem
        omega
      · simp only [hitem, List.map_singleton, List.mem_singleton] at hmem
        omega
    by_cases hp : s1.isProcessing = true
    · rw [if_pos hp]
      exact h1
    · rw [if_neg hp]
      obtain ⟨hsub, hspk⟩ := processNext_queue_sub s1
      intro t ht
      rw [hspk]
      exact h1 t (hsub t ht)
  | synthesisCompleted =>
    show ∀ t ∈ queueTokens (handleSynthesisCompleted s),
      t < (handleSynthesisCompleted s).spoken.length
    cases hqe : s.textQueue with
    | nil =>
      have heq : handleSynthesisCompleted s =
          processNextInQueue { s with isProcessing := false } := by
        simp [handleSynthesisCompleted, hqe]
      rw [heq]
      obtain ⟨hsub, hspk⟩ := processNext_queue_sub { s with isProcessing := false }
      intro t ht
      rw [hspk]
      exact h t (hsub t ht)
    | cons item rest =>
      have heq : handleSynthesisCompleted s = processNextInQueue
          { s with textQueue := rest, settled := s.settled ++ [(item.token, true)],
                   isProcessing := false } := by
        simp [handleSynthesisCompleted, hqe]
      rw [heq]
      have h2 : ∀ t ∈ queueTokens
          { s with textQueue := rest, settled := s.settled ++ [(item.token, true)],
                   isProcessing := false },
          t < ({ s with textQueue := rest,
                        settled := s.settled ++ [(item.token, true)],
                        isProcessing := false } : TTSState).spoken.length := by
        intro t ht
        refine h t ?_
        rw [queueTokens, hqe]
        exact List.mem_cons_of_mem _ ht
      obtain ⟨hsub, hspk⟩ := processNext_queue_sub _
      intro t ht
      rw [hspk]
      exact h2 t (hsub t ht)
  | synthesisError =>
    show ∀ t ∈ queueTokens (handleSynthesisError s),
      t < (handleSynthesisError s).spoken.length
    cases hqe : s.textQueue with
    | nil =>
      have heq : handleSynthesisError s =
          processNextInQueue { s with isProcessing := false } := by
        simp [handleSynthesisError, hqe]
      rw [heq]
      obtain ⟨hsub, hspk⟩ := processNext_queue_sub { s with isProcessing := false }
      intro t ht
      rw [hspk]
      exact h t (hsub t ht)
    | cons item rest =>
      have heq : handleSynthesisError s = processNextInQueue
          { s with textQueue := rest, settled := s.settled ++ [(item.token, false)],
                   isProcessing := false } := by
        simp [handleSynthesisError, hqe]
      rw [heq]
      have h2 : ∀ t ∈ queueTokens
          { s with textQueue := rest, settled := s.settled ++ [(item.token, false)],
                   isProcessing := false },
          t < ({ s with textQueue := rest,
                        settled := s.settled ++ [(item.token, false)],
                        isProcessing := false } : TTSState).spoken.length := by
        intro t ht
        refine h t ?_
        rw [queueTokens, hqe]
        exact List.mem_cons_of_mem _ ht
      obtain ⟨hsub, hspk⟩ := processNext_queue_sub _
      intro t ht
      rw [hspk]
      exact h2 t (hsub t ht)
  | audioChunk ok buf =>
    obtain ⟨h1, _, h3⟩ := handleAudioChunk_frame s ok buf
    intro t ht
    rw [show queueTokens (step s (.audioChunk ok buf)) =
        (handleAudioChunk s ok buf).textQueue.map QItem.token from rfl, h1] at ht
    rw [show (step s (.audioChunk ok buf)).spoken =
        (handleAudioChunk s ok buf).spoken from rfl, h3]
    exact h t ht
  | chunkEnded =>
    obtain ⟨h1, _, h3⟩ := playNextChunk_frame s
    intro t ht
    rw [show queueTokens (step s .chunkEnded) =
        (playNextChunk s).textQueue.map QItem.token from rfl, h1] at ht
    rw [show (step s .chunkEnded).spoken = (playNextChunk s).spoken from rfl, h3]
    exact h t ht
  | disconnectReq =>
    intro t ht
    simp [queueTokens, step, disconnect] at ht

/-- Along any run, queued tokens stay below the `speak`-log length. -/
theorem run_queue_tokens_lt :
    ∀ (es : List TTSEvent) (s : TTSState),
      (∀ t ∈ queueTokens s, t < s.spoken.length) →
      ∀ t ∈ queueTokens (run s es), t < (run s es).spoken.length := by
  intro es
  induction es with
  | nil => intro s h; exact h
  | cons e rest ih =>
    intro s h
    exact ih (step s e) (step_queue_tokens_lt s e h)

/-- C10: after `disconnect()` the service reports not connected, both the
synthesis text queue and the audio playback queue are empty, and no promise
is settled by the disconnect itself; moreover any `speak` promise still
pending (queued, unsettled) at that moment is never settled afterwards, no
matter what events follow — the caller waits forever. -/
theorem disconnect_drops_pending (es : List TTSEvent) (tok : Nat)
    (hq : tok ∈ queueTokens (run initTTS es))
    (hs : tok ∉ settledTokens (run initTTS es)) :
    isConnected (disconnect (run initTTS es)) = false ∧
    (disconnect (run initTTS es)).textQueue = [] ∧
    (disconnect (run initTTS es)).audioQueue = [] ∧
    (disconnect (run initTTS es)).settled = (run initTTS es).settled ∧
    ∀ es2, tok ∉ settledTokens (run (disconnect (run initTTS es)) es2) := by
  have hlt : tok < (run initTTS es).spoken.length :=
    run_queue_tokens_lt es initTTS (by simp [queueTokens, initTTS]) tok hq
  refine ⟨rfl, rfl, rfl, rfl, ?_⟩
  intro es2
  refine run_never_settles es2 (disconnect (run initTTS es)) tok ?_ hs hlt
  simp [queueTokens, disconnect]

/-- The concrete C10 scenario: two speaks, the first completes, the second
is in flight when `disconnect` is called. -/
def c10Trace : List TTSEvent :=
  [.speakReq "hello" none, .speakReq "world" none, .synthesisCompleted]

/-- C10 witness: token 1 (the second speak) is pending at disconnect, the
disconnected state is fully drained, and a later terminal response still
settles nothing for it. -/
theorem disconnect_drops_pending_witness :
    1 ∈ queueTokens (run initTTS c10Trace) ∧
    1 ∉ settledTokens (run initTTS c10Trace) ∧
    isConnected (disconnect (run initTTS c10Trace)) = false ∧
    (disconnect (run initTTS c10Trace)).textQueue = [] ∧
    (disconnect (run initTTS c10Trace)).audioQueue = [] ∧
    (disconnect (run initTTS c10Trace)).settled = (run initTTS c10Trace).settled ∧
    1 ∉ settledTokens
      (run (disconnect (run initTTS c10Trace)) [TTSEvent.synthesisCompleted]) := by
  have h := disconnect_drops_pending c10Trace 1 (by decide) (by decide)
  exact ⟨by decide, by decide, h.1, h.2.1, h.2.2.1, h.2.2.2.1,
    h.2.2.2.2 [TTSEvent.synthesisCompleted]⟩

end Trnsltr
